import Mathlib

/-!
Verification development for the Map-App tile engine.

The repository downloads XYZ slippy-map tiles for several region shapes and
merges them into a georeferenced raster.  The Python floating-point
computations are embedded over the real numbers; Python `int()` truncation is
`pyTrunc`; the filesystem and network are abstracted: file discovery becomes
an input list of parsed tile coordinates, HTTP responses become explicit
values, and disk writes become an explicit ordered event trace.
-/

namespace MapApp

open Real

/-- Python `int()` applied to a float: truncation toward zero. -/
noncomputable def pyTrunc (r : ℝ) : ℤ := if 0 ≤ r then ⌊r⌋ else ⌈r⌉

/-- Python `math.radians`. -/
noncomputable def radians (x : ℝ) : ℝ := x * π / 180

/-- Python `math.degrees`. -/
noncomputable def degrees (x : ℝ) : ℝ := x * 180 / π

/-- Python `range(a, b + 1)`, the inclusive integer range used by the tile loops. -/
def intRange (a b : ℤ) : List ℤ := (List.range (b + 1 - a).toNat).map (fun i : ℕ => a + (i : ℤ))

namespace Constants

/-- From src/utils/utils.py line 10. -/
def TILE_SIZE : ℤ := 256

end Constants

namespace Transforms

/-- From src/utils/utils.py lines 13-28: converts tile coordinates (x, y, z) to
the longitude and latitude in degrees of the upper-left corner of the tile. -/
noncomputable def tile2deg (x y z : ℤ) : ℝ × ℝ :=
  let n : ℝ := 2 ^ z
  let lon_deg : ℝ := (x : ℝ) / n * 360 - 180
  let lat_rad : ℝ := Real.arctan (Real.sinh (π * (1 - 2 * (y : ℝ) / n)))
  (lon_deg, degrees lat_rad)

/-- From src/utils/utils.py lines 30-43: converts longitude and latitude to the
x and y tile coordinates at a zoom level, truncating with Python `int()`. -/
noncomputable def deg2tile (lon lat : ℝ) (zoom : ℤ) : ℤ × ℤ :=
  let n : ℝ := 2 ^ zoom
  let x_tile := pyTrunc ((lon + 180) / 360 * n)
  let y_tile := pyTrunc ((1 - Real.log (Real.tan (radians lat) + 1 / Real.cos (radians lat)) / π) / 2 * n)
  (x_tile, y_tile)

end Transforms

namespace Formulas

/-- From src/utils/utils.py lines 47-66: pixel size in degrees for a zoom level
in EPSG:4326, with the cosine clamped away from zero near the poles. -/
noncomputable def cal_pixel_size (zoom_level : ℤ) (latitude : ℝ) : ℝ × ℝ :=
  let x_pixel_size : ℝ := 360 / ((Constants.TILE_SIZE : ℝ) * 2 ^ zoom_level)
  let eps : ℝ := 1e-6
  let cos_lat0 : ℝ := Real.cos (radians latitude)
  let cos_lat : ℝ := if |cos_lat0| < eps then eps else cos_lat0
  (x_pixel_size, x_pixel_size * cos_lat)

end Formulas

namespace Corridor

/-- From src/utils/download_tile_corridor.py lines 111-125: great circle
distance in kilometers between two points given in decimal degrees.  An
identical copy exists in src/utils/download_tile_tolerance.py lines 111-125. -/
noncomputable def haversine_distance (lon1 lat1 lon2 lat2 : ℝ) : ℝ :=
  let rlon1 := radians lon1
  let rlat1 := radians lat1
  let rlon2 := radians lon2
  let rlat2 := radians lat2
  let dlon := rlon2 - rlon1
  let dlat := rlat2 - rlat1
  let a := Real.sin (dlat / 2) ^ 2 + Real.cos rlat1 * Real.cos rlat2 * Real.sin (dlon / 2) ^ 2
  let c := 2 * Real.arcsin (Real.sqrt a)
  c * 6371

/-- From src/utils/download_tile_corridor.py lines 128-149: perpendicular
distance from (px, py) to the segment (x1, y1)-(x2, y2), with the projection
parameter clamped to [0, 1]; a zero-length segment degrades to point distance. -/
noncomputable def point_to_line_distance (px py x1 y1 x2 y2 : ℝ) : ℝ :=
  let dx := x2 - x1
  let dy := y2 - y1
  if dx = 0 ∧ dy = 0 then
    Real.sqrt ((px - x1) ^ 2 + (py - y1) ^ 2)
  else
    let t := max 0 (min 1 (((px - x1) * dx + (py - y1) * dy) / (dx * dx + dy * dy)))
    let closest_x := x1 + t * dx
    let closest_y := y1 + t * dy
    Real.sqrt ((px - closest_x) ^ 2 + (py - closest_y) ^ 2)

/-- From src/utils/download_tile_corridor.py lines 179-212: the candidate tiles
of the padded bounding box of the path at one zoom level, enumerated exactly as
the nested x and y loops do. -/
noncomputable def path_candidate_tiles (point1 point2 : ℝ × ℝ) (buffer_width_km : ℝ) (z : ℤ) :
    List (ℤ × ℤ) :=
  let lon1 := point1.1; let lat1 := point1.2
  let lon2 := point2.1; let lat2 := point2.2
  let min_lon := min lon1 lon2
  let max_lon := max lon1 lon2
  let min_lat := min lat1 lat2
  let max_lat := max lat1 lat2
  let avg_lat := (lat1 + lat2) / 2
  let km_per_deg_lat : ℝ := 111.0
  let km_per_deg_lon : ℝ := 111.0 * Real.cos (radians avg_lat)
  let lat_buffer := buffer_width_km / km_per_deg_lat
  let lon_buffer := buffer_width_km / km_per_deg_lon
  let s := Transforms.deg2tile (min_lon - lon_buffer) (max_lat + lat_buffer) z
  let e := Transforms.deg2tile (max_lon + lon_buffer) (min_lat - lat_buffer) z
  let sx := min s.1 e.1; let ex := max s.1 e.1
  let sy := min s.2 e.2; let ey := max s.2 e.2
  (intRange sx ex).flatMap (fun x => (intRange sy ey).map (fun y => (x, y)))

/-- From src/utils/download_tile_corridor.py lines 217-231: the distance in
kilometers attributed to a candidate tile, obtained by projecting the tile
center onto the path in planar degrees and converting that planar delta to
kilometers with the haversine distance at the tile center latitude. -/
noncomputable def corridor_dist_km (point1 point2 : ℝ × ℝ) (z x y : ℤ) : ℝ :=
  let c := Transforms.tile2deg x y z
  let dist_deg := point_to_line_distance c.1 c.2 point1.1 point1.2 point2.1 point2.2
  haversine_distance c.1 c.2 (c.1 + dist_deg) c.2

/-- From src/utils/download_tile_corridor.py lines 203-235: the tile selection
performed by download_path_tiles, keeping a candidate tile exactly when its
corridor distance is at most the buffer width.  The network download that
follows the selection is outside the embedding. -/
noncomputable def download_path_tiles (point1 point2 : ℝ × ℝ) (buffer_width_km : ℝ)
    (min_z max_z : ℤ) : List (ℤ × ℤ × ℤ) :=
  (intRange min_z max_z).flatMap (fun z =>
    ((path_candidate_tiles point1 point2 buffer_width_km z).filter
      (fun t => decide (corridor_dist_km point1 point2 z t.1 t.2 ≤ buffer_width_km))).map
      (fun t => (z, t.1, t.2)))

end Corridor

namespace Tolerance

/-- From src/utils/download_tile_tolerance.py lines 128-153: perpendicular
distance from (px, py) to the segment (x1, y1)-(x2, y2) together with the
clamped normalized projection parameter t; for a zero-length segment it
returns the point distance and t = 0. -/
noncomputable def point_to_line_segment_projection (px py x1 y1 x2 y2 : ℝ) : ℝ × ℝ :=
  let dx := x2 - x1
  let dy := y2 - y1
  if dx = 0 ∧ dy = 0 then
    (Real.sqrt ((px - x1) ^ 2 + (py - y1) ^ 2), 0)
  else
    let t := max 0 (min 1 (((px - x1) * dx + (py - y1) * dy) / (dx * dx + dy * dy)))
    let closest_x := x1 + t * dx
    let closest_y := y1 + t * dy
    (Real.sqrt ((px - closest_x) ^ 2 + (py - closest_y) ^ 2), t)

/-- From src/utils/download_tile_tolerance.py lines 203-233: candidate tiles of
the bounding box padded by min_width_km plus the maximum buffer width, at one
zoom level. -/
noncomputable def wedge_candidate_tiles (point1 point2 : ℝ × ℝ) (tolerance min_width_km : ℝ)
    (z : ℤ) : List (ℤ × ℤ) :=
  let lon1 := point1.1; let lat1 := point1.2
  let lon2 := point2.1; let lat2 := point2.2
  let path_distance_km := Corridor.haversine_distance lon1 lat1 lon2 lat2
  let max_buffer_width_km := tolerance * path_distance_km
  let min_lon := min lon1 lon2
  let max_lon := max lon1 lon2
  let min_lat := min lat1 lat2
  let max_lat := max lat1 lat2
  let avg_lat := (lat1 + lat2) / 2
  let km_per_deg_lat : ℝ := 111.0
  let km_per_deg_lon : ℝ := 111.0 * Real.cos (radians avg_lat)
  let buffer_for_bbox := min_width_km + max_buffer_width_km
  let lat_buffer := buffer_for_bbox / km_per_deg_lat
  let lon_buffer := buffer_for_bbox / km_per_deg_lon
  let s := Transforms.deg2tile (min_lon - lon_buffer) (max_lat + lat_buffer) z
  let e := Transforms.deg2tile (max_lon + lon_buffer) (min_lat - lat_buffer) z
  let sx := min s.1 e.1; let ex := max s.1 e.1
  let sy := min s.2 e.2; let ey := max s.2 e.2
  (intRange sx ex).flatMap (fun x => (intRange sy ey).map (fun y => (x, y)))

/-- From src/utils/download_tile_tolerance.py lines 238-252: the projection of
a candidate tile center onto the path, giving the planar distance and the
position parameter t. -/
noncomputable def wedge_proj (point1 point2 : ℝ × ℝ) (z x y : ℤ) : ℝ × ℝ :=
  let c := Transforms.tile2deg x y z
  point_to_line_segment_projection c.1 c.2 point1.1 point1.2 point2.1 point2.2

/-- From src/utils/download_tile_tolerance.py lines 248-252: the kilometer
conversion of the planar tile distance, as in corridor mode. -/
noncomputable def wedge_dist_km (point1 point2 : ℝ × ℝ) (z x y : ℤ) : ℝ :=
  let c := Transforms.tile2deg x y z
  Corridor.haversine_distance c.1 c.2 (c.1 + (wedge_proj point1 point2 z x y).1) c.2

/-- From src/utils/download_tile_tolerance.py lines 191-262: the tile selection
performed by download_triangular_path_tiles, keeping a candidate tile exactly
when its distance is at most the linearly interpolated allowed width at its
position along the path.  The network download that follows is outside the
embedding. -/
noncomputable def download_triangular_path_tiles (point1 point2 : ℝ × ℝ)
    (tolerance min_width_km : ℝ) (min_z max_z : ℤ) : List (ℤ × ℤ × ℤ) :=
  let path_distance_km := Corridor.haversine_distance point1.1 point1.2 point2.1 point2.2
  let max_buffer_width_km := tolerance * path_distance_km
  (intRange min_z max_z).flatMap (fun z =>
    ((wedge_candidate_tiles point1 point2 tolerance min_width_km z).filter
      (fun t => decide (wedge_dist_km point1 point2 z t.1 t.2 ≤
        min_width_km + (wedge_proj point1 point2 z t.1 t.2).2 *
          (max_buffer_width_km - min_width_km)))).map
      (fun t => (z, t.1, t.2)))

end Tolerance

namespace XyzTiles

/-- From src/utils/xyz_tiles.py lines 138-148: the tiles enumerated for the
extent at one zoom level, with corner tile indices sorted on each axis. -/
noncomputable def xyz_tiles_at_zoom (north south east west : ℝ) (z : ℤ) : List (ℤ × ℤ × ℤ) :=
  let s := Transforms.deg2tile west north z
  let e := Transforms.deg2tile east south z
  let sx := min s.1 e.1; let ex := max s.1 e.1
  let sy := min s.2 e.2; let ey := max s.2 e.2
  (intRange sx ex).flatMap (fun x => (intRange sy ey).map (fun y => (z, x, y)))

/-- From src/utils/xyz_tiles.py lines 134-148: the full tile workload of
download_xyz_tiles over the zoom range.  The network download that follows is
outside the embedding. -/
noncomputable def download_xyz_tiles (north south east west : ℝ) (min_z max_z : ℤ) :
    List (ℤ × ℤ × ℤ) :=
  (intRange min_z max_z).flatMap (fun z => xyz_tiles_at_zoom north south east west z)

/-- An HTTP response as seen by download_tile: a status code and a byte body,
the bytes abstracted as a list of naturals. -/
structure HttpResponse where
  status : ℕ
  content : List ℕ
deriving DecidableEq

/-- The observable outcome of one download_tile call: the boolean return
value, the shared missed list after the call, and the shared progress counter
(current, total) after the call. -/
structure DownloadResult where
  ok : Bool
  missed : Option (List (ℤ × ℤ × ℤ × String))
  counter : Option (ℕ × ℕ)
deriving DecidableEq

/-- From src/utils/xyz_tiles.py lines 44-112 (an identical copy exists in
src/utils/download_tile_corridor.py lines 44-108).  The network request is
abstracted as the value resp: a transport error carries the Python message
string, otherwise a response arrives.  Disk writes are abstracted as
succeeding.  The Python exception paths are modelled by the branches that
return ok = false, so the embedded function is total: the function never
raises to its caller.  The progress counter is advanced exactly when the code
advances it, namely when a progress callback and a counter are both given. -/
def download_tile (x y zoom : ℤ) (file_exists allow_overwrite : Bool)
    (resp : Except String HttpResponse)
    (missed : Option (List (ℤ × ℤ × ℤ × String)))
    (has_progress_callback : Bool) (counter : Option (ℕ × ℕ)) : DownloadResult :=
  let bump : Option (ℕ × ℕ) → Option (ℕ × ℕ) := fun c =>
    if has_progress_callback ∧ c.isSome then c.map (fun p => (p.1 + 1, p.2)) else c
  if ¬allow_overwrite ∧ file_exists then
    { ok := true, missed := missed, counter := bump counter }
  else
    match resp with
    | Except.error e =>
        { ok := false
          missed := missed.map (fun m => m ++ [(x, y, zoom, e)])
          counter := bump counter }
    | Except.ok r =>
        if r.status = 200 ∧ ¬r.content.isEmpty then
          if r.content.length < 200 then
            let err := "OSError: Suspiciously small tile response"
            { ok := false
              missed := missed.map (fun m => m ++ [(x, y, zoom, err)])
              counter := bump counter }
          else
            { ok := true, missed := missed, counter := bump counter }
        else
          let msg := "HTTP " ++ toString r.status ++ " for tile " ++ toString x ++ "," ++
            toString y ++ ",z" ++ toString zoom
          { ok := false
            missed := missed.map (fun m => m ++ [(x, y, zoom, msg)])
            counter := bump counter }

end XyzTiles

namespace RasterMap

/-- Fuel-driven core of Python str.replace on character lists: scans left to
right and replaces every non-overlapping occurrence of pat by rep.  The fuel
starts at the length of the scanned list, which suffices because every step
consumes at least one character. -/
def replaceFuel (pat rep : List Char) : ℕ → List Char → List Char
  | 0, s => s
  | _ + 1, [] => []
  | fuel + 1, c :: rest =>
      if pat ≠ [] ∧ pat.isPrefixOf (c :: rest) then
        rep ++ replaceFuel pat rep fuel ((c :: rest).drop pat.length)
      else
        c :: replaceFuel pat rep fuel rest

/-- Python str.replace for a non-empty pattern. -/
def pyReplace (s pat rep : String) : String :=
  String.mk (replaceFuel pat.data rep.data s.data.length s.data)

/-- Whether pat occurs as a contiguous sublist of s (Python `pat in s` for a
non-empty pat). -/
def hasSub (pat : List Char) : List Char → Bool
  | [] => pat.isEmpty
  | c :: rest => pat.isPrefixOf (c :: rest) || hasSub pat rest

/-- The disk operations performed by make_tif and compress_with_gdal, in
program order: the rasterio write of the uncompressed raster, the
gdal.Translate recompression, and the os.remove of the temporary file. -/
inductive IOEvent
  | writeRaw (path : String)
  | gdalTranslate (dest src : String) (opts : List String)
  | removeFile (path : String)
deriving DecidableEq

/-- From src/utils/raster_map.py line 58: the Python expression
`compress_type.lower() if compress_type else "none"`; None and the empty
string are both falsy. -/
def lowered_compression (compress_type : Option String) : String :=
  match compress_type with
  | none => "none"
  | some s => if s.data.isEmpty then "none" else String.mk (s.data.map Char.toLower)

/-- Whether a lowered compression name is one the branch chain of
compress_with_gdal accepts. -/
def supported_compression (s : String) : Bool :=
  s = "jpeg" || s = "lzw" || s = "deflate" || s = "none"

/-- From src/utils/raster_map.py lines 47-82: recompress input_tif into
output_tif.  Returns the gdal.Translate event on a supported compression name
and the ValueError message of line 73 otherwise; the ValueError is raised
before gdal.Translate runs. -/
def compress_with_gdal (input_tif output_tif : String) (compress_type : Option String)
    (jpeg_quality : ℕ) : Except String (List IOEvent) :=
  let ct := lowered_compression compress_type
  if ct = "jpeg" then
    Except.ok [IOEvent.gdalTranslate output_tif input_tif
      ["TILED=YES", "COMPRESS=JPEG", "PHOTOMETRIC=YCBCR", "JPEG_QUALITY=" ++ toString jpeg_quality]]
  else if ct = "lzw" then
    Except.ok [IOEvent.gdalTranslate output_tif input_tif ["TILED=YES", "COMPRESS=LZW"]]
  else if ct = "deflate" then
    Except.ok [IOEvent.gdalTranslate output_tif input_tif ["TILED=YES", "COMPRESS=DEFLATE"]]
  else if ct = "none" then
    Except.ok [IOEvent.gdalTranslate output_tif input_tif []]
  else
    Except.error ("❌ Unsupported compression type: " ++ ct)

/-- From src/utils/raster_map.py lines 85-114: make_tif first writes the
uncompressed raster at output_tif with every ".tif" occurrence replaced by
"_raw.tif", then recompresses it to output_tif, then removes the temporary
file.  The result is the ordered trace of disk events together with normal
return or the propagated ValueError; on the error the raw write has already
happened and the removal never does.  The image, geometry and geotransform
arguments do not influence the traced behaviour and are omitted. -/
def make_tif (output_tif : String) (compress_type : Option String) (jpeg_quality : ℕ) :
    List IOEvent × Except String Unit :=
  let raw_output := pyReplace output_tif ".tif" "_raw.tif"
  match compress_with_gdal raw_output output_tif compress_type jpeg_quality with
  | Except.ok evs => ([IOEvent.writeRaw raw_output] ++ evs ++ [IOEvent.removeFile raw_output],
      Except.ok ())
  | Except.error e => ([IOEvent.writeRaw raw_output], Except.error e)

/-- The georeferencing data computed by merge_tiles_bbox for the composed
canvas: pixel dimensions, raster origin, and pixel sizes. -/
structure MosaicOut where
  widthPx : ℤ
  heightPx : ℤ
  originLon : ℝ
  originLat : ℝ
  pixelSizeX : ℝ
  pixelSizeY : ℝ

/-- From src/utils/raster_map.py lines 148-177: the tiles kept by the
bounding-box filter, out of the discovered tile files given as parsed
(z, x, y) coordinates.  The x bounds are taken directly from the two corners;
only the y bounds are reordered. -/
noncomputable def merge_filter (tiles : List (ℤ × ℤ × ℤ)) (zoom : ℤ)
    (north_lat south_lat west_lon east_lon : ℝ) : List (ℤ × ℤ × ℤ) :=
  let p1 := Transforms.deg2tile west_lon north_lat zoom
  let p2 := Transforms.deg2tile east_lon south_lat zoom
  let x_min := p1.1
  let x_max := p2.1
  let y_min := min p1.2 p2.2
  let y_max := max p1.2 p2.2
  tiles.filter (fun t => decide (t.1 = zoom ∧ x_min ≤ t.2.1 ∧ t.2.1 ≤ x_max ∧
    y_min ≤ t.2.2 ∧ t.2.2 ≤ y_max))

/-- From src/utils/raster_map.py lines 185-237: given the filtered tiles,
merge_tiles_bbox recomputes the actual tile rectangle, allocates the canvas,
and derives the geotransform.  File discovery is abstracted as the input list
of parsed tile coordinates and the pixel pasting is outside the embedding;
the empty-filter early returns give none. -/
noncomputable def merge_tiles_bbox (tiles : List (ℤ × ℤ × ℤ)) (zoom : ℤ)
    (north_lat south_lat west_lon east_lon : ℝ) (tile_size : ℤ) : Option MosaicOut :=
  match merge_filter tiles zoom north_lat south_lat west_lon east_lon with
  | [] => none
  | t :: ts =>
    let actual_x_min := (ts.map (fun u => u.2.1)).foldl min t.2.1
    let actual_x_max := (ts.map (fun u => u.2.1)).foldl max t.2.1
    let actual_y_min := (ts.map (fun u => u.2.2)).foldl min t.2.2
    let actual_y_max := (ts.map (fun u => u.2.2)).foldl max t.2.2
    let width := (actual_x_max - actual_x_min + 1) * tile_size
    let height := (actual_y_max - actual_y_min + 1) * tile_size
    let o := Transforms.tile2deg actual_x_min actual_y_min zoom
    let s := Transforms.tile2deg actual_x_max actual_y_max zoom
    let center_lat := (o.2 + s.2) / 2
    let ps := Formulas.cal_pixel_size zoom center_lat
    some { widthPx := width, heightPx := height, originLon := o.1, originLat := o.2,
           pixelSizeX := ps.1, pixelSizeY := ps.2 }

end RasterMap

section RangeLemmas

lemma mem_intRange {a b c : ℤ} : c ∈ intRange a b ↔ a ≤ c ∧ c ≤ b := by
  unfold intRange
  simp only [List.mem_map, List.mem_range]
  constructor
  · rintro ⟨i, hi, rfl⟩
    omega
  · rintro ⟨h1, h2⟩
    exact ⟨(c - a).toNat, by omega, by omega⟩

lemma intRange_nodup (a b : ℤ) : (intRange a b).Nodup := by
  unfold intRange
  refine List.Nodup.map ?_ (List.nodup_range _)
  intro i j h
  simp only [add_right_inj, Nat.cast_inj] at h
  exact h

lemma intRange_length_of_le {a b : ℤ} (h : a ≤ b) :
    ((intRange a b).length : ℤ) = b - a + 1 := by
  unfold intRange
  simp only [List.length_map, List.length_range]
  omega

lemma rect_length {α : Type} (f : ℤ → ℤ → α) (sx ex sy ey : ℤ) :
    ((intRange sx ex).flatMap (fun x => (intRange sy ey).map (fun y => f x y))).length
      = (intRange sx ex).length * (intRange sy ey).length := by
  induction intRange sx ex with
  | nil => simp
  | cons x xs ih => simp [ih, Nat.succ_mul, Nat.add_comm]

lemma rect_nodup {α : Type} (f : ℤ → ℤ → α)
    (hf : Function.Injective fun p : ℤ × ℤ => f p.1 p.2) (sx ex sy ey : ℤ) :
    ((intRange sx ex).flatMap (fun x => (intRange sy ey).map (fun y => f x y))).Nodup := by
  rw [List.nodup_flatMap]
  constructor
  · intro x _
    refine List.Nodup.map ?_ (intRange_nodup sy ey)
    intro y1 y2 h
    have h2 : ((x, y1) : ℤ × ℤ) = (x, y2) := hf h
    exact congrArg Prod.snd h2
  · refine List.Pairwise.imp ?_ (intRange_nodup sx ex)
    intro x1 x2 hne
    simp only [Function.onFun, List.disjoint_left, List.mem_map]
    rintro a ⟨y1, _, rfl⟩ ⟨y2, _, hEq⟩
    have h2 : ((x2, y2) : ℤ × ℤ) = (x1, y1) := hf hEq
    exact hne (congrArg Prod.fst h2).symm


end RangeLemmas

/-- C1: download_path_tiles keeps a candidate tile (z, x, y) of the padded
bounding box, at a zoom of the requested range, exactly when the perpendicular
distance from the tile center to the path segment point1-point2 (point to
segment projection in planar degrees with t clamped to [0, 1], converted to
kilometers as the haversine distance between the tile center and the point
offset by the planar delta) is at most the buffer width, boundary inclusive.
The statement quantifies over every buffer width and so covers every
buffer_width_km greater or equal zero. -/
theorem download_path_tiles_keeps_iff (point1 point2 : ℝ × ℝ) (w : ℝ)
    (min_z max_z z x y : ℤ) :
    (z, x, y) ∈ Corridor.download_path_tiles point1 point2 w min_z max_z ↔
      min_z ≤ z ∧ z ≤ max_z ∧
      (x, y) ∈ Corridor.path_candidate_tiles point1 point2 w z ∧
      Corridor.corridor_dist_km point1 point2 z x y ≤ w := by
  unfold Corridor.download_path_tiles
  simp only [List.mem_flatMap, List.mem_map, List.mem_filter, mem_intRange,
    decide_eq_true_eq]
  constructor
  · rintro ⟨z', ⟨hz1, hz2⟩, t, ⟨ht, hd⟩, hEq⟩
    obtain ⟨rfl, rfl, rfl⟩ : z' = z ∧ t.1 = x ∧ t.2 = y := by
      refine ⟨congrArg (fun p => p.1) hEq, ?_, ?_⟩
      · exact congrArg (fun p => p.2.1) hEq
      · exact congrArg (fun p => p.2.2) hEq
    exact ⟨hz1, hz2, ht, hd⟩
  · rintro ⟨hz1, hz2, ht, hd⟩
    exact ⟨z, ⟨hz1, hz2⟩, (x, y), ⟨ht, hd⟩, rfl⟩

/-- C3: download_triangular_path_tiles keeps a candidate tile exactly when its
kilometer distance to the segment is at most the interpolated width
min_width_km + t * (max_width_km - min_width_km) with
max_width_km = tolerance * haversine(point1, point2) and t the clamped
normalized projection parameter; and for a zero-length segment the projection
returns the plain point distance together with t = 0. -/
theorem download_triangular_path_tiles_keeps_iff (point1 point2 : ℝ × ℝ)
    (tolerance min_width_km : ℝ) (min_z max_z z x y : ℤ) (px py a b : ℝ) :
    ((z, x, y) ∈ Tolerance.download_triangular_path_tiles point1 point2 tolerance
        min_width_km min_z max_z ↔
      min_z ≤ z ∧ z ≤ max_z ∧
      (x, y) ∈ Tolerance.wedge_candidate_tiles point1 point2 tolerance min_width_km z ∧
      Tolerance.wedge_dist_km point1 point2 z x y ≤
        min_width_km + (Tolerance.wedge_proj point1 point2 z x y).2 *
          (tolerance * Corridor.haversine_distance point1.1 point1.2 point2.1 point2.2
            - min_width_km)) ∧
    Tolerance.point_to_line_segment_projection px py a b a b =
      (Real.sqrt ((px - a) ^ 2 + (py - b) ^ 2), 0) := by
  constructor
  · unfold Tolerance.download_triangular_path_tiles
    simp only [List.mem_flatMap, List.mem_map, List.mem_filter, mem_intRange,
      decide_eq_true_eq]
    constructor
    · rintro ⟨z', ⟨hz1, hz2⟩, t, ⟨ht, hd⟩, hEq⟩
      obtain ⟨rfl, rfl, rfl⟩ : z' = z ∧ t.1 = x ∧ t.2 = y := by
        refine ⟨congrArg (fun p => p.1) hEq, ?_, ?_⟩
        · exact congrArg (fun p => p.2.1) hEq
        · exact congrArg (fun p => p.2.2) hEq
      exact ⟨hz1, hz2, ht, hd⟩
    · rintro ⟨hz1, hz2, ht, hd⟩
      exact ⟨z, ⟨hz1, hz2⟩, (x, y), ⟨ht, hd⟩, rfl⟩
  · unfold Tolerance.point_to_line_segment_projection
    rw [if_pos (by constructor <;> ring)]

lemma intRange_self (a : ℤ) : intRange a a = [a] := by
  unfold intRange
  norm_num
  rw [show List.range 1 = [0] from rfl]
  simp

/-- C2: at a fixed zoom, the BoundingBox selection of download_xyz_tiles is the
full rectangle between the two deg2tile corner indices with each axis sorted,
so it has exactly (xMax - xMin + 1) * (yMax - yMin + 1) tiles and no
duplicates. -/
theorem download_xyz_tiles_count_nodup (north south east west : ℝ) (z : ℤ) :
    XyzTiles.download_xyz_tiles north south east west z z =
      XyzTiles.xyz_tiles_at_zoom north south east west z ∧
    ((XyzTiles.xyz_tiles_at_zoom north south east west z).length : ℤ) =
      (max (Transforms.deg2tile west north z).1 (Transforms.deg2tile east south z).1 -
         min (Transforms.deg2tile west north z).1 (Transforms.deg2tile east south z).1 + 1) *
      (max (Transforms.deg2tile west north z).2 (Transforms.deg2tile east south z).2 -
         min (Transforms.deg2tile west north z).2 (Transforms.deg2tile east south z).2 + 1) ∧
    (XyzTiles.xyz_tiles_at_zoom north south east west z).Nodup := by
  refine ⟨?_, ?_, ?_⟩
  · unfold XyzTiles.download_xyz_tiles
    rw [intRange_self]
    simp
  · unfold XyzTiles.xyz_tiles_at_zoom
    rw [rect_length]
    push_cast
    rw [intRange_length_of_le min_le_max, intRange_length_of_le min_le_max]
  · unfold XyzTiles.xyz_tiles_at_zoom
    refine rect_nodup _ ?_ _ _ _ _
    intro p q h
    have h1 := congrArg (fun t : ℤ × ℤ × ℤ => t.2.1) h
    have h2 := congrArg (fun t : ℤ × ℤ × ℤ => t.2.2) h
    exact Prod.ext h1 h2

/-- C6: a 200 response whose body is shorter than 200 bytes is a failure, not
a success: download_tile returns false, appends an (x, y, zoom, reason) entry
to the provided missed list, and still advances the shared counter by one.
The embedded function is total, which reflects that the Python original
catches the raised IOError internally and never raises to its caller. -/
theorem download_tile_small_response (x y zoom : ℤ) (allow_overwrite : Bool)
    (content : List ℕ) (m : List (ℤ × ℤ × ℤ × String)) (cur tot : ℕ)
    (hsmall : content.length < 200) :
    (XyzTiles.download_tile x y zoom false allow_overwrite
        (Except.ok ⟨200, content⟩) (some m) true (some (cur, tot))).ok = false ∧
    (∃ reason, (XyzTiles.download_tile x y zoom false allow_overwrite
        (Except.ok ⟨200, content⟩) (some m) true (some (cur, tot))).missed =
      some (m ++ [(x, y, zoom, reason)])) ∧
    (XyzTiles.download_tile x y zoom false allow_overwrite
        (Except.ok ⟨200, content⟩) (some m) true (some (cur, tot))).counter =
      some (cur + 1, tot) := by
  cases content with
  | nil =>
    refine ⟨by simp [XyzTiles.download_tile],
      ⟨"HTTP " ++ toString (200 : ℕ) ++ " for tile " ++ toString x ++ "," ++ toString y ++
        ",z" ++ toString zoom, by simp [XyzTiles.download_tile]⟩,
      by simp [XyzTiles.download_tile]⟩
  | cons c cs =>
    have hlt : cs.length + 1 < 200 := by simpa using hsmall
    refine ⟨by simp [XyzTiles.download_tile, hlt],
      ⟨"OSError: Suspiciously small tile response", by simp [XyzTiles.download_tile, hlt]⟩,
      by simp [XyzTiles.download_tile, hlt]⟩

/-- Witness for download_tile_small_response at a concrete 100-byte body. -/
theorem download_tile_small_response_witness :
    (List.replicate 100 0).length < 200 ∧
    ((XyzTiles.download_tile 1 2 3 false false
        (Except.ok ⟨200, List.replicate 100 0⟩) (some []) true (some (0, 5))).ok = false ∧
      (∃ reason, (XyzTiles.download_tile 1 2 3 false false
          (Except.ok ⟨200, List.replicate 100 0⟩) (some []) true (some (0, 5))).missed =
        some ([] ++ [(1, 2, 3, reason)])) ∧
      (XyzTiles.download_tile 1 2 3 false false
          (Except.ok ⟨200, List.replicate 100 0⟩) (some []) true (some (0, 5))).counter =
        some (0 + 1, 5)) :=
  ⟨by simp, download_tile_small_response 1 2 3 false (List.replicate 100 0) [] 0 5 (by simp)⟩

lemma replaceFuel_of_not_hasSub (pat rep : List Char) {s : List Char}
    (h : RasterMap.hasSub pat s = false) : ∀ fuel, RasterMap.replaceFuel pat rep fuel s = s := by
  induction s with
  | nil =>
    intro fuel
    cases fuel <;> rfl
  | cons c rest ih =>
    intro fuel
    cases fuel with
    | zero => rfl
    | succ f =>
      unfold RasterMap.hasSub at h
      rw [Bool.or_eq_false_iff] at h
      unfold RasterMap.replaceFuel
      rw [if_neg]
      · rw [ih h.2 f]
      · rintro ⟨-, hpre⟩
        rw [h.1] at hpre
        exact absurd hpre (by simp)

lemma pyReplace_of_not_hasSub (s pat rep : String)
    (h : RasterMap.hasSub pat.data s.data = false) : RasterMap.pyReplace s pat rep = s := by
  obtain ⟨d⟩ := s
  unfold RasterMap.pyReplace
  rw [replaceFuel_of_not_hasSub pat.data rep.data h]

/-- C10: make_tif writes the temporary uncompressed raster at the path that is
output_tif with every ".tif" occurrence replaced by "_raw.tif", and on every
normal return the last disk operation removes exactly that temporary path; if
output_tif does not contain ".tif" the temporary path is output_tif itself,
so the removed file is the final output. -/
theorem make_tif_temp_raw_lifecycle (output_tif : String) (compress_type : Option String)
    (jpeg_quality : ℕ) :
    (RasterMap.make_tif output_tif compress_type jpeg_quality).1.head? =
      some (RasterMap.IOEvent.writeRaw (RasterMap.pyReplace output_tif ".tif" "_raw.tif")) ∧
    ((RasterMap.make_tif output_tif compress_type jpeg_quality).2 = Except.ok () →
      (RasterMap.make_tif output_tif compress_type jpeg_quality).1.getLast? =
        some (RasterMap.IOEvent.removeFile
          (RasterMap.pyReplace output_tif ".tif" "_raw.tif"))) ∧
    (RasterMap.hasSub ".tif".data output_tif.data = false →
      RasterMap.pyReplace output_tif ".tif" "_raw.tif" = output_tif) := by
  refine ⟨?_, ?_, fun h => pyReplace_of_not_hasSub _ _ _ h⟩
  · simp only [RasterMap.make_tif]
    cases RasterMap.compress_with_gdal (RasterMap.pyReplace output_tif ".tif" "_raw.tif")
      output_tif compress_type jpeg_quality <;> rfl
  · simp only [RasterMap.make_tif]
    cases RasterMap.compress_with_gdal (RasterMap.pyReplace output_tif ".tif" "_raw.tif")
      output_tif compress_type jpeg_quality with
    | error e => intro hok; exact absurd hok (by simp)
    | ok evs =>
      intro _
      show (RasterMap.IOEvent.writeRaw _ :: (evs ++ _)).getLast? = _
      rw [← List.cons_append, List.getLast?_concat]

/-- Witness for make_tif_temp_raw_lifecycle: for the output name "m", which
does not contain ".tif", the raw write and the final removal both target "m"
itself. -/
theorem make_tif_temp_raw_lifecycle_witness :
    (RasterMap.make_tif "m" (some "none") 75).2 = Except.ok () ∧
    RasterMap.hasSub ".tif".data "m".data = false ∧
    (RasterMap.make_tif "m" (some "none") 75).1.head? =
      some (RasterMap.IOEvent.writeRaw "m") ∧
    (RasterMap.make_tif "m" (some "none") 75).1.getLast? =
      some (RasterMap.IOEvent.removeFile "m") := by
  have h := make_tif_temp_raw_lifecycle "m" (some "none") 75
  have hrepl : RasterMap.pyReplace "m" ".tif" "_raw.tif" = "m" := h.2.2 (by decide)
  have hok : (RasterMap.make_tif "m" (some "none") 75).2 = Except.ok () := rfl
  refine ⟨hok, by decide, ?_, ?_⟩
  · rw [h.1, hrepl]
  · rw [h.2.1 hok, hrepl]

/-- C5 counterexample: at the concrete call make_tif "out.tif" with
compression "zip", the unsupported-compression ValueError is indeed raised,
but only after the temporary uncompressed raster "out_raw.tif" has been
written: the claimed absence of I/O before the error is false. -/
theorem make_tif_unsupported_io_counterexample :
    (RasterMap.make_tif "out.tif" (some "zip") 75).2 =
      Except.error "❌ Unsupported compression type: zip" ∧
    (RasterMap.make_tif "out.tif" (some "zip") 75).1 =
      [RasterMap.IOEvent.writeRaw "out_raw.tif"] := by
  exact ⟨rfl, rfl⟩

/-- C5 amended: an unsupported compression name makes make_tif raise the
ValueError of compress_with_gdal, but only after the temporary uncompressed
raster has been written to disk; the error does precede the gdal recompression
and the temporary file is never removed. -/
theorem make_tif_unsupported_after_raw_write (output_tif : String)
    (compress_type : Option String) (jpeg_quality : ℕ)
    (h : RasterMap.supported_compression (RasterMap.lowered_compression compress_type) = false) :
    (RasterMap.make_tif output_tif compress_type jpeg_quality).1 =
      [RasterMap.IOEvent.writeRaw (RasterMap.pyReplace output_tif ".tif" "_raw.tif")] ∧
    (RasterMap.make_tif output_tif compress_type jpeg_quality).2 =
      Except.error ("❌ Unsupported compression type: " ++
        RasterMap.lowered_compression compress_type) := by
  rw [RasterMap.supported_compression, Bool.or_eq_false_iff, Bool.or_eq_false_iff,
    Bool.or_eq_false_iff] at h
  obtain ⟨⟨⟨h1, h2⟩, h3⟩, h4⟩ := h
  rw [decide_eq_false_iff_not] at h1 h2 h3 h4
  simp only [RasterMap.make_tif, RasterMap.compress_with_gdal]
  rw [if_neg h1, if_neg h2, if_neg h3, if_neg h4]
  exact ⟨rfl, rfl⟩

/-- Witness for make_tif_unsupported_after_raw_write at compression "zip". -/
theorem make_tif_unsupported_after_raw_write_witness :
    RasterMap.supported_compression (RasterMap.lowered_compression (some "zip")) = false ∧
    (RasterMap.make_tif "map.tif" (some "zip") 7).1 =
      [RasterMap.IOEvent.writeRaw "map_raw.tif"] := by
  refine ⟨by decide, ?_⟩
  have h := make_tif_unsupported_after_raw_write "map.tif" (some "zip") 7 (by decide)
  rw [h.1]
  decide

section MercatorBounds

lemma limit_lt_pi_div_two : 17 * π / 36 < π / 2 := by nlinarith [pi_pos]

lemma abs_radians_lt {lat : ℝ} (h1 : -85 < lat) (h2 : lat < 85) :
    |radians lat| < 17 * π / 36 := by
  unfold radians
  rw [abs_lt]
  constructor <;> nlinarith [pi_pos]

lemma cos_pos_of_lt_limit {r : ℝ} (h : |r| < 17 * π / 36) : 0 < Real.cos r := by
  rw [abs_lt] at h
  have hl := limit_lt_pi_div_two
  exact Real.cos_pos_of_mem_Ioo ⟨by linarith [h.1], by linarith [h.2]⟩

lemma one_add_sin_pos {r : ℝ} (h : |r| < 17 * π / 36) : 0 < 1 + Real.sin r := by
  rw [abs_lt] at h
  have hl := limit_lt_pi_div_two
  have hs : Real.sin (-(π / 2)) < Real.sin r :=
    Real.sin_lt_sin_of_lt_of_le_pi_div_two le_rfl (by linarith [h.2]) (by linarith [h.1])
  rw [Real.sin_neg, Real.sin_pi_div_two] at hs
  linarith

lemma mercator_u_eq {r : ℝ} (hc : 0 < Real.cos r) :
    Real.tan r + 1 / Real.cos r = (1 + Real.sin r) / Real.cos r := by
  rw [Real.tan_eq_sin_div_cos]
  field_simp
  ring

lemma mercator_u_pos {r : ℝ} (h : |r| < 17 * π / 36) :
    0 < Real.tan r + 1 / Real.cos r := by
  rw [mercator_u_eq (cos_pos_of_lt_limit h)]
  exact div_pos (one_add_sin_pos h) (cos_pos_of_lt_limit h)

lemma sin_pi_div_36_gt : (0.0871 : ℝ) < Real.sin (π / 36) := by
  have hx1 : (0.0872664 : ℝ) < π / 36 := by nlinarith [Real.pi_gt_d6]
  have hx2 : π / 36 < (0.0872665 : ℝ) := by nlinarith [Real.pi_lt_d6]
  have hx0 : (0 : ℝ) < π / 36 := by linarith
  have h3 := Real.sin_gt_sub_cube hx0 (by linarith)
  have hcube : (π / 36) ^ 3 < (0.0872665 : ℝ) ^ 3 :=
    pow_lt_pow_left₀ hx2 hx0.le (by norm_num)
  nlinarith

lemma exp_pi_gt_23 : (23 : ℝ) < Real.exp π := by
  have e1 := Real.exp_one_gt_d9
  have e3 : Real.exp 3 = Real.exp 1 ^ 3 := by
    rw [← Real.exp_nat_mul]
    norm_num
  have h3 : (20.0855 : ℝ) < Real.exp 3 := by
    rw [e3]
    have hcube : (2.7182818283 : ℝ) ^ 3 ≤ Real.exp 1 ^ 3 :=
      pow_le_pow_left₀ (by norm_num) e1.le 3
    nlinarith
  have e014 : Real.exp (0.141592 : ℝ) = Real.exp (0.017699 : ℝ) ^ 8 := by
    rw [← Real.exp_nat_mul]
    norm_num
  have hsmallexp : (1.017699 : ℝ) ≤ Real.exp (0.017699 : ℝ) := by
    have := Real.add_one_le_exp (0.017699 : ℝ)
    linarith
  have h014 : (1.1505 : ℝ) < Real.exp (0.141592 : ℝ) := by
    rw [e014]
    calc (1.1505 : ℝ) < 1.017699 ^ 8 := by norm_num
    _ ≤ Real.exp (0.017699 : ℝ) ^ 8 :=
        pow_le_pow_left₀ (by norm_num) hsmallexp 8
  have esum : Real.exp (3.141592 : ℝ) = Real.exp 3 * Real.exp (0.141592 : ℝ) := by
    rw [← Real.exp_add]
    norm_num
  have h6 : (23 : ℝ) < Real.exp (3.141592 : ℝ) := by
    rw [esum]
    nlinarith [Real.exp_pos 3, Real.exp_pos (0.141592 : ℝ)]
  have h7 : Real.exp (3.141592 : ℝ) < Real.exp π :=
    Real.exp_lt_exp.mpr Real.pi_gt_d6
  linarith

lemma key_numeric : 2 / Real.sin (π / 36) < Real.exp π := by
  have hspos : (0 : ℝ) < Real.sin (π / 36) := by linarith [sin_pi_div_36_gt]
  rw [div_lt_iff₀ hspos]
  nlinarith [sin_pi_div_36_gt, exp_pi_gt_23]

lemma mercator_u_lt {r : ℝ} (h : |r| < 17 * π / 36) :
    Real.tan r + 1 / Real.cos r < Real.exp π := by
  have hc := cos_pos_of_lt_limit h
  have hc36 : Real.cos (17 * π / 36) = Real.sin (π / 36) := by
    rw [show (17 : ℝ) * π / 36 = π / 2 - π / 36 by ring, Real.cos_pi_div_two_sub]
  have hcc : Real.cos (17 * π / 36) < Real.cos r := by
    have h1 : Real.cos (17 * π / 36) < Real.cos |r| := by
      rcases eq_or_lt_of_le (abs_nonneg r) with heq | hlt
      · rw [← heq]
        simp only [Real.cos_zero]
        rw [hc36]
        have h2 := Real.sin_lt (show (0 : ℝ) < π / 36 by positivity)
        have h3 : π / 36 < 1 := by nlinarith [Real.pi_lt_d6]
        linarith
      · exact Real.cos_lt_cos_of_nonneg_of_le_pi (abs_nonneg r)
          (by nlinarith [pi_pos]) h
    rwa [Real.cos_abs] at h1
  have hc36pos : 0 < Real.cos (17 * π / 36) := by
    rw [hc36]
    linarith [sin_pi_div_36_gt]
  rw [mercator_u_eq hc]
  have hsle := Real.sin_le_one r
  calc (1 + Real.sin r) / Real.cos r
      ≤ 2 / Real.cos r := (div_le_div_right hc).mpr (by linarith)
    _ < 2 / Real.cos (17 * π / 36) := div_lt_div_of_pos_left (by norm_num) hc36pos hcc
    _ = 2 / Real.sin (π / 36) := by rw [hc36]
    _ < Real.exp π := key_numeric

lemma mercator_u_mul_reflect {r : ℝ} (hc : 0 < Real.cos r) :
    (Real.tan r + 1 / Real.cos r) * (Real.tan (-r) + 1 / Real.cos (-r)) = 1 := by
  have hs := Real.sin_sq_add_cos_sq r
  rw [Real.tan_neg, Real.cos_neg, Real.tan_eq_sin_div_cos]
  field_simp
  nlinarith

lemma mercator_u_gt {r : ℝ} (h : |r| < 17 * π / 36) :
    Real.exp (-π) < Real.tan r + 1 / Real.cos r := by
  have hneg : |(-r)| < 17 * π / 36 := by rwa [abs_neg]
  have hv := mercator_u_lt hneg
  have hvpos := mercator_u_pos hneg
  have hupos := mercator_u_pos h
  have hmul := mercator_u_mul_reflect (cos_pos_of_lt_limit h)
  have hinv : Real.tan r + 1 / Real.cos r = (Real.tan (-r) + 1 / Real.cos (-r))⁻¹ :=
    eq_inv_of_mul_eq_one_right (by linarith [hmul, mul_comm (Real.tan r + 1 / Real.cos r) (Real.tan (-r) + 1 / Real.cos (-r))])
  rw [hinv, Real.exp_neg]
  exact inv_lt_inv_of_lt hvpos hv

lemma mercator_log_bounds {r : ℝ} (h : |r| < 17 * π / 36) :
    -π < Real.log (Real.tan r + 1 / Real.cos r) ∧
      Real.log (Real.tan r + 1 / Real.cos r) < π := by
  constructor
  · have := Real.log_lt_log (Real.exp_pos (-π)) (mercator_u_gt h)
    rwa [Real.log_exp] at this
  · have := Real.log_lt_log (mercator_u_pos h) (mercator_u_lt h)
    rwa [Real.log_exp] at this

lemma mercator_m_bounds {lat : ℝ} (h1 : -85 < lat) (h2 : lat < 85) :
    0 < (1 - Real.log (Real.tan (radians lat) + 1 / Real.cos (radians lat)) / π) / 2 ∧
    (1 - Real.log (Real.tan (radians lat) + 1 / Real.cos (radians lat)) / π) / 2 < 1 := by
  have hb := mercator_log_bounds (abs_radians_lt h1 h2)
  have hpi := pi_pos
  have hu : Real.log (Real.tan (radians lat) + 1 / Real.cos (radians lat)) / π < 1 :=
    (div_lt_one hpi).mpr hb.2
  have hl : -1 < Real.log (Real.tan (radians lat) + 1 / Real.cos (radians lat)) / π := by
    rw [neg_lt, ← neg_div]
    exact (div_lt_one hpi).mpr (by linarith [hb.1])
  constructor <;> linarith

end MercatorBounds

section TransformLemmas

lemma pyTrunc_of_nonneg {r : ℝ} (h : 0 ≤ r) : pyTrunc r = ⌊r⌋ := if_pos h

lemma tile2deg_fst (x y z : ℤ) :
    (Transforms.tile2deg x y z).1 = (x : ℝ) / 2 ^ z * 360 - 180 := rfl

lemma tile2deg_snd (x y z : ℤ) :
    (Transforms.tile2deg x y z).2 =
      degrees (Real.arctan (Real.sinh (π * (1 - 2 * (y : ℝ) / 2 ^ z)))) := rfl

lemma deg2tile_fst (lon lat : ℝ) (z : ℤ) :
    (Transforms.deg2tile lon lat z).1 = pyTrunc ((lon + 180) / 360 * 2 ^ z) := rfl

lemma deg2tile_snd (lon lat : ℝ) (z : ℤ) :
    (Transforms.deg2tile lon lat z).2 =
      pyTrunc ((1 - Real.log (Real.tan (radians lat) + 1 / Real.cos (radians lat)) / π)
        / 2 * 2 ^ z) := rfl

lemma two_zpow_pos (z : ℤ) : (0 : ℝ) < 2 ^ z := zpow_pos (by norm_num) z

lemma one_le_two_zpow {z : ℤ} (hz : 0 ≤ z) : (1 : ℝ) ≤ 2 ^ z := by
  calc (1 : ℝ) = 2 ^ (0 : ℤ) := by norm_num
  _ ≤ 2 ^ z := by
      apply zpow_le_zpow_right₀ (by norm_num) hz

lemma radians_zero : radians 0 = 0 := by simp [radians]

lemma mercator_term_zero : Real.tan (radians 0) + 1 / Real.cos (radians 0) = 1 := by
  rw [radians_zero]
  simp

lemma deg2tile_lat0_snd (lon : ℝ) (z : ℤ) :
    (Transforms.deg2tile lon 0 z).2 = pyTrunc (2 ^ z / 2) := by
  rw [deg2tile_snd, mercator_term_zero]
  have h : (1 - Real.log 1 / π) / 2 * 2 ^ z = 2 ^ z / 2 := by
    rw [Real.log_one]
    ring
  rw [h]

lemma tile2deg_origin (z : ℤ) :
    Transforms.tile2deg 0 0 z = (-180, degrees (Real.arctan (Real.sinh π))) := by
  unfold Transforms.tile2deg
  norm_num

end TransformLemmas

/-- C7 counterexample: at the negative zoom -1 both transforms return normal
values instead of failing: no InvalidParameter validation exists in the
code, which computes with the fractional tile count 2 ^ (-1). -/
theorem transforms_negative_zoom_counterexample :
    Transforms.tile2deg 0 0 (-1) = (-180, degrees (Real.arctan (Real.sinh π))) ∧
    Transforms.deg2tile 0 0 (-1) = (0, 0) := by
  refine ⟨tile2deg_origin (-1), ?_⟩
  have hx : (Transforms.deg2tile 0 0 (-1)).1 = 0 := by
    rw [deg2tile_fst, pyTrunc_of_nonneg (by positivity)]
    rw [show ((0 : ℝ) + 180) / 360 * 2 ^ (-1 : ℤ) = 1 / 4 by norm_num]
    rw [Int.floor_eq_zero_iff]
    norm_num
  have hy : (Transforms.deg2tile 0 0 (-1)).2 = 0 := by
    rw [deg2tile_lat0_snd, pyTrunc_of_nonneg (by positivity)]
    rw [show (2 : ℝ) ^ (-1 : ℤ) / 2 = 1 / 4 by norm_num]
    rw [Int.floor_eq_zero_iff]
    norm_num
  exact Prod.ext hx hy

/-- C7 amended: tile2deg and deg2tile contain no zoom validation and never
fail: at every negative zoom they still return ordinary values, computed with
the fractional tile count 2 ^ z (shown here at the origin inputs, where the
results are independent of how negative the zoom is). -/
theorem transforms_negative_zoom_total (z : ℤ) (hz : z < 0) :
    Transforms.tile2deg 0 0 z = (-180, degrees (Real.arctan (Real.sinh π))) ∧
    Transforms.deg2tile 0 0 z = (0, 0) := by
  refine ⟨tile2deg_origin z, ?_⟩
  have hn0 := two_zpow_pos z
  have hn : (2 : ℝ) ^ z ≤ 2⁻¹ := by
    calc (2 : ℝ) ^ z ≤ 2 ^ (-1 : ℤ) := zpow_le_zpow_right₀ (by norm_num) (by omega)
    _ = 2⁻¹ := by norm_num
  have hx : (Transforms.deg2tile 0 0 z).1 = 0 := by
    rw [deg2tile_fst, pyTrunc_of_nonneg (by positivity)]
    rw [Int.floor_eq_zero_iff]
    constructor
    · positivity
    · show (0 + 180) / 360 * 2 ^ z < 1
      nlinarith
  have hy : (Transforms.deg2tile 0 0 z).2 = 0 := by
    rw [deg2tile_lat0_snd, pyTrunc_of_nonneg (by positivity)]
    rw [Int.floor_eq_zero_iff]
    constructor
    · positivity
    · show (2 : ℝ) ^ z / 2 < 1
      nlinarith
  exact Prod.ext hx hy

/-- Witness for transforms_negative_zoom_total at zoom -1. -/
theorem transforms_negative_zoom_total_witness :
    (-1 : ℤ) < 0 ∧
    (Transforms.tile2deg 0 0 (-1) = (-180, degrees (Real.arctan (Real.sinh π))) ∧
      Transforms.deg2tile 0 0 (-1) = (0, 0)) :=
  ⟨by norm_num, transforms_negative_zoom_total (-1) (by norm_num)⟩

/-- C8 counterexample: at the boundary longitude 180 and zoom 0, deg2tile
returns the tile x index 1, which is not smaller than 2 ^ 0 = 1: the inclusive
longitude range of the claim produces an out-of-range TileId. -/
theorem deg2tile_lon180_counterexample :
    Transforms.deg2tile 180 0 0 = (1, 0) ∧
    ¬((Transforms.deg2tile 180 0 0).1 < 2 ^ (0 : ℕ)) := by
  have hx : (Transforms.deg2tile 180 0 0).1 = 1 := by
    rw [deg2tile_fst, pyTrunc_of_nonneg (by positivity)]
    rw [show ((180 : ℝ) + 180) / 360 * 2 ^ (0 : ℤ) = 1 by norm_num]
    exact Int.floor_one
  have hy : (Transforms.deg2tile 180 0 0).2 = 0 := by
    rw [deg2tile_lat0_snd, pyTrunc_of_nonneg (by positivity)]
    rw [show (2 : ℝ) ^ (0 : ℤ) / 2 = 1 / 2 by norm_num]
    rw [Int.floor_eq_zero_iff]
    norm_num
  refine ⟨Prod.ext hx hy, ?_⟩
  rw [hx]
  norm_num

/-- C8 amended: for every zoom z in [0, 22], every longitude in the half-open
interval [-180, 180) and every latitude strictly inside (-85, 85), deg2tile
returns tile indices with 0 <= x < 2 ^ z and 0 <= y < 2 ^ z, a valid TileId;
the counterexample forces excluding the right longitude endpoint 180. -/
theorem deg2tile_in_tile_range (z : ℤ) (lon lat : ℝ)
    (hz0 : 0 ≤ z) (hz22 : z ≤ 22)
    (hlon1 : -180 ≤ lon) (hlon2 : lon < 180)
    (hlat1 : -85 < lat) (hlat2 : lat < 85) :
    (0 ≤ (Transforms.deg2tile lon lat z).1 ∧
      ((Transforms.deg2tile lon lat z).1 : ℝ) < 2 ^ z) ∧
    (0 ≤ (Transforms.deg2tile lon lat z).2 ∧
      ((Transforms.deg2tile lon lat z).2 : ℝ) < 2 ^ z) := by
  have hnpos := two_zpow_pos z
  constructor
  · rw [deg2tile_fst]
    have ha0 : 0 ≤ (lon + 180) / 360 * 2 ^ z :=
      mul_nonneg (div_nonneg (by linarith) (by norm_num)) hnpos.le
    rw [pyTrunc_of_nonneg ha0]
    have ha1 : (lon + 180) / 360 * 2 ^ z < 2 ^ z := by
      have h1 : (lon + 180) / 360 < 1 := by
        rw [div_lt_one (by norm_num)]
        linarith
      nlinarith
    exact ⟨Int.floor_nonneg.mpr ha0, lt_of_le_of_lt (Int.floor_le _) ha1⟩
  · rw [deg2tile_snd]
    obtain ⟨hm0, hm1⟩ := mercator_m_bounds hlat1 hlat2
    have ha0 : 0 ≤ (1 - Real.log (Real.tan (radians lat) + 1 / Real.cos (radians lat)) / π)
        / 2 * 2 ^ z := mul_nonneg hm0.le hnpos.le
    rw [pyTrunc_of_nonneg ha0]
    have ha1 : (1 - Real.log (Real.tan (radians lat) + 1 / Real.cos (radians lat)) / π)
        / 2 * 2 ^ z < 2 ^ z := by nlinarith
    exact ⟨Int.floor_nonneg.mpr ha0, lt_of_le_of_lt (Int.floor_le _) ha1⟩

/-- Witness for deg2tile_in_tile_range at zoom 0 and the origin coordinate. -/
theorem deg2tile_in_tile_range_witness :
    ((0 : ℤ) ≤ 0 ∧ (0 : ℤ) ≤ 22 ∧ (-180 : ℝ) ≤ 0 ∧ (0 : ℝ) < 180 ∧
      (-85 : ℝ) < 0 ∧ (0 : ℝ) < 85) ∧
    ((0 ≤ (Transforms.deg2tile 0 0 0).1 ∧
        ((Transforms.deg2tile 0 0 0).1 : ℝ) < 2 ^ (0 : ℤ)) ∧
      (0 ≤ (Transforms.deg2tile 0 0 0).2 ∧
        ((Transforms.deg2tile 0 0 0).2 : ℝ) < 2 ^ (0 : ℤ))) :=
  ⟨⟨le_rfl, by norm_num, by norm_num, by norm_num, by norm_num, by norm_num⟩,
    deg2tile_in_tile_range 0 0 0 le_rfl (by norm_num) (by norm_num) (by norm_num)
      (by norm_num) (by norm_num)⟩

lemma mercator_inverse {lat : ℝ} (h1 : -85 < lat) (h2 : lat < 85) (n : ℝ) (hn : n ≠ 0) :
    degrees (Real.arctan (Real.sinh (π * (1 - 2 *
      ((1 - Real.log (Real.tan (radians lat) + 1 / Real.cos (radians lat)) / π) / 2 * n)
        / n)))) = lat := by
  have hr : |radians lat| < 17 * π / 36 := abs_radians_lt h1 h2
  have hc := cos_pos_of_lt_limit hr
  have hupos := mercator_u_pos hr
  have harg : π * (1 - 2 *
      ((1 - Real.log (Real.tan (radians lat) + 1 / Real.cos (radians lat)) / π) / 2 * n) / n)
      = Real.log (Real.tan (radians lat) + 1 / Real.cos (radians lat)) := by
    field_simp
    ring
  rw [harg]
  have hinvu : (Real.tan (radians lat) + 1 / Real.cos (radians lat))⁻¹ =
      (1 - Real.sin (radians lat)) / Real.cos (radians lat) := by
    rw [mercator_u_eq hc, inv_div, div_eq_div_iff (one_add_sin_pos hr).ne' hc.ne']
    nlinarith [Real.sin_sq_add_cos_sq (radians lat)]
  have hsinh : Real.sinh (Real.log (Real.tan (radians lat) + 1 / Real.cos (radians lat))) =
      Real.tan (radians lat) := by
    rw [Real.sinh_log hupos, hinvu, mercator_u_eq hc, Real.tan_eq_sin_div_cos]
    field_simp
    ring
  rw [hsinh]
  rw [abs_lt] at hr
  have hl := limit_lt_pi_div_two
  rw [Real.arctan_tan (by linarith [hr.1]) (by linarith [hr.2])]
  unfold degrees radians
  field_simp

/-- C9: for every zoom in [0, 20], latitude in (-85, 85) and longitude in
[-180, 180], applying tile2deg to deg2tile(lon, lat, z) lands within one
tile of the input: the returned upper-left corner is at most (lon, lat) away
by less than one tile width 360 / 2 ^ z in longitude, and the input latitude
lies strictly inside the vertical extent of the returned tile row (between
the upper edge of row y + 1, exclusive, and the upper edge of row y,
inclusive). -/
theorem tile2deg_deg2tile_roundtrip (z : ℤ) (lon lat : ℝ)
    (hz0 : 0 ≤ z) (hz20 : z ≤ 20)
    (hlon1 : -180 ≤ lon) (hlon2 : lon ≤ 180)
    (hlat1 : -85 < lat) (hlat2 : lat < 85) :
    (Transforms.tile2deg (Transforms.deg2tile lon lat z).1
        (Transforms.deg2tile lon lat z).2 z).1 ≤ lon ∧
    lon - (Transforms.tile2deg (Transforms.deg2tile lon lat z).1
        (Transforms.deg2tile lon lat z).2 z).1 < 360 / 2 ^ z ∧
    lat ≤ (Transforms.tile2deg (Transforms.deg2tile lon lat z).1
        (Transforms.deg2tile lon lat z).2 z).2 ∧
    (Transforms.tile2deg (Transforms.deg2tile lon lat z).1
        ((Transforms.deg2tile lon lat z).2 + 1) z).2 < lat := by
  have hnpos := two_zpow_pos z
  have hn := hnpos.ne'
  -- the longitude component
  have ha0 : 0 ≤ (lon + 180) / 360 * 2 ^ z :=
    mul_nonneg (div_nonneg (by linarith) (by norm_num)) hnpos.le
  have hx : (Transforms.deg2tile lon lat z).1 = ⌊(lon + 180) / 360 * 2 ^ z⌋ := by
    rw [deg2tile_fst, pyTrunc_of_nonneg ha0]
  have hfle : ((⌊(lon + 180) / 360 * 2 ^ z⌋ : ℤ) : ℝ) ≤ (lon + 180) / 360 * 2 ^ z :=
    Int.floor_le _
  have hflt : (lon + 180) / 360 * 2 ^ z < ⌊(lon + 180) / 360 * 2 ^ z⌋ + 1 :=
    Int.lt_floor_add_one _
  have hval : ((lon + 180) / 360 * 2 ^ z) / 2 ^ z * 360 = lon + 180 := by
    field_simp
    ring
  -- the latitude component
  obtain ⟨hm0, hm1⟩ := mercator_m_bounds hlat1 hlat2
  have hY0 : 0 ≤ (1 - Real.log (Real.tan (radians lat) + 1 / Real.cos (radians lat)) / π)
      / 2 * 2 ^ z := mul_nonneg hm0.le hnpos.le
  have hy : (Transforms.deg2tile lon lat z).2 =
      ⌊(1 - Real.log (Real.tan (radians lat) + 1 / Real.cos (radians lat)) / π)
        / 2 * 2 ^ z⌋ := by
    rw [deg2tile_snd, pyTrunc_of_nonneg hY0]
  have hYle : ((⌊(1 - Real.log (Real.tan (radians lat) + 1 / Real.cos (radians lat)) / π)
      / 2 * 2 ^ z⌋ : ℤ) : ℝ) ≤
      (1 - Real.log (Real.tan (radians lat) + 1 / Real.cos (radians lat)) / π)
        / 2 * 2 ^ z := Int.floor_le _
  have hYlt : (1 - Real.log (Real.tan (radians lat) + 1 / Real.cos (radians lat)) / π)
      / 2 * 2 ^ z <
      ⌊(1 - Real.log (Real.tan (radians lat) + 1 / Real.cos (radians lat)) / π)
        / 2 * 2 ^ z⌋ + 1 := Int.lt_floor_add_one _
  have hkey := mercator_inverse hlat1 hlat2 ((2 : ℝ) ^ z) hn
  refine ⟨?_, ?_, ?_, ?_⟩
  · rw [tile2deg_fst, hx]
    have h1 : ((⌊(lon + 180) / 360 * 2 ^ z⌋ : ℤ) : ℝ) / 2 ^ z * 360 ≤
        ((lon + 180) / 360 * 2 ^ z) / 2 ^ z * 360 := by gcongr
    linarith [hval]
  · rw [tile2deg_fst, hx]
    have h1 : ((lon + 180) / 360 * 2 ^ z) / 2 ^ z * 360 <
        (((⌊(lon + 180) / 360 * 2 ^ z⌋ : ℤ) : ℝ) + 1) / 2 ^ z * 360 := by gcongr
    have h2 : (((⌊(lon + 180) / 360 * 2 ^ z⌋ : ℤ) : ℝ) + 1) / 2 ^ z * 360 =
        ((⌊(lon + 180) / 360 * 2 ^ z⌋ : ℤ) : ℝ) / 2 ^ z * 360 + 360 / 2 ^ z := by
      ring
    linarith [hval]
  · rw [tile2deg_snd, hy]
    have harg : π * (1 - 2 *
        ((1 - Real.log (Real.tan (radians lat) + 1 / Real.cos (radians lat)) / π)
          / 2 * 2 ^ z) / 2 ^ z) ≤ π * (1 - 2 *
        ((⌊(1 - Real.log (Real.tan (radians lat) + 1 / Real.cos (radians lat)) / π)
          / 2 * 2 ^ z⌋ : ℤ) : ℝ) / 2 ^ z) := by
      have hdivle : 2 * ((⌊(1 - Real.log (Real.tan (radians lat) + 1 / Real.cos (radians lat))
          / π) / 2 * 2 ^ z⌋ : ℤ) : ℝ) / 2 ^ z ≤ 2 *
          ((1 - Real.log (Real.tan (radians lat) + 1 / Real.cos (radians lat)) / π)
            / 2 * 2 ^ z) / 2 ^ z := by gcongr
      nlinarith [pi_pos]
    have hmono := Real.arctan_strictMono.monotone (Real.sinh_le_sinh.mpr harg)
    have hpip := pi_pos
    calc lat = degrees (Real.arctan (Real.sinh (π * (1 - 2 *
          ((1 - Real.log (Real.tan (radians lat) + 1 / Real.cos (radians lat)) / π)
            / 2 * 2 ^ z) / 2 ^ z)))) := hkey.symm
      _ ≤ degrees (Real.arctan (Real.sinh (π * (1 - 2 *
          ((⌊(1 - Real.log (Real.tan (radians lat) + 1 / Real.cos (radians lat)) / π)
            / 2 * 2 ^ z⌋ : ℤ) : ℝ) / 2 ^ z)))) := by
        unfold degrees
        gcongr
  · rw [tile2deg_snd, hy]
    have harg : π * (1 - 2 *
        (((⌊(1 - Real.log (Real.tan (radians lat) + 1 / Real.cos (radians lat)) / π)
          / 2 * 2 ^ z⌋ : ℤ) + 1 : ℤ) : ℝ) / 2 ^ z) < π * (1 - 2 *
        ((1 - Real.log (Real.tan (radians lat) + 1 / Real.cos (radians lat)) / π)
          / 2 * 2 ^ z) / 2 ^ z) := by
      have hdivlt : 2 * ((1 - Real.log (Real.tan (radians lat) + 1 / Real.cos (radians lat))
          / π) / 2 * 2 ^ z) / 2 ^ z < 2 *
          (((⌊(1 - Real.log (Real.tan (radians lat) + 1 / Real.cos (radians lat)) / π)
            / 2 * 2 ^ z⌋ : ℤ) + 1 : ℤ) : ℝ) / 2 ^ z := by
        push_cast
        gcongr
      nlinarith [pi_pos]
    have hmono := Real.arctan_strictMono (Real.sinh_lt_sinh.mpr harg)
    have hpip := pi_pos
    have hlt2 : degrees (Real.arctan (Real.sinh (π * (1 - 2 *
          (((⌊(1 - Real.log (Real.tan (radians lat) + 1 / Real.cos (radians lat)) / π)
            / 2 * 2 ^ z⌋ : ℤ) + 1 : ℤ) : ℝ) / 2 ^ z)))) <
        degrees (Real.arctan (Real.sinh (π * (1 - 2 *
          ((1 - Real.log (Real.tan (radians lat) + 1 / Real.cos (radians lat)) / π)
            / 2 * 2 ^ z) / 2 ^ z)))) := by
      unfold degrees
      gcongr
    exact lt_of_lt_of_eq hlt2 hkey

/-- Witness for tile2deg_deg2tile_roundtrip at zoom 0 and the origin. -/
theorem tile2deg_deg2tile_roundtrip_witness :
    ((0 : ℤ) ≤ 0 ∧ (0 : ℤ) ≤ 20 ∧ (-180 : ℝ) ≤ 0 ∧ (0 : ℝ) ≤ 180 ∧
      (-85 : ℝ) < 0 ∧ (0 : ℝ) < 85) ∧
    ((Transforms.tile2deg (Transforms.deg2tile 0 0 0).1
        (Transforms.deg2tile 0 0 0).2 0).1 ≤ 0 ∧
      0 - (Transforms.tile2deg (Transforms.deg2tile 0 0 0).1
        (Transforms.deg2tile 0 0 0).2 0).1 < 360 / 2 ^ (0 : ℤ) ∧
      (0 : ℝ) ≤ (Transforms.tile2deg (Transforms.deg2tile 0 0 0).1
        (Transforms.deg2tile 0 0 0).2 0).2 ∧
      (Transforms.tile2deg (Transforms.deg2tile 0 0 0).1
        ((Transforms.deg2tile 0 0 0).2 + 1) 0).2 < 0) :=
  ⟨⟨le_rfl, by norm_num, by norm_num, by norm_num, by norm_num, by norm_num⟩,
    tile2deg_deg2tile_roundtrip 0 0 0 le_rfl (by norm_num) (by norm_num) (by norm_num)
      (by norm_num) (by norm_num)⟩

section FoldLemmas

lemma foldl_min_spec (a : ℤ) (l : List ℤ) :
    l.foldl min a ∈ a :: l ∧ ∀ b ∈ a :: l, l.foldl min a ≤ b := by
  induction l generalizing a with
  | nil => simp
  | cons c cs ih =>
    obtain ⟨hmem, hle⟩ := ih (min a c)
    simp only [List.foldl_cons]
    constructor
    · rcases List.mem_cons.mp hmem with h1 | h1
      · rcases min_choice a c with h2 | h2
        · rw [h1, h2]
          exact List.mem_cons_self _ _
        · rw [h1, h2]
          exact List.mem_cons_of_mem _ (List.mem_cons_self _ _)
      · exact List.mem_cons_of_mem _ (List.mem_cons_of_mem _ h1)
    · intro b hb
      rcases List.mem_cons.mp hb with hba | hb2
      · rw [hba]
        exact le_trans (hle _ (List.mem_cons_self _ _)) (min_le_left a c)
      rcases List.mem_cons.mp hb2 with hbc | hb3
      · rw [hbc]
        exact le_trans (hle _ (List.mem_cons_self _ _)) (min_le_right a c)
      · exact hle _ (List.mem_cons_of_mem _ hb3)

lemma foldl_max_spec (a : ℤ) (l : List ℤ) :
    l.foldl max a ∈ a :: l ∧ ∀ b ∈ a :: l, b ≤ l.foldl max a := by
  induction l generalizing a with
  | nil => simp
  | cons c cs ih =>
    obtain ⟨hmem, hle⟩ := ih (max a c)
    simp only [List.foldl_cons]
    constructor
    · rcases List.mem_cons.mp hmem with h1 | h1
      · rcases max_choice a c with h2 | h2
        · rw [h1, h2]
          exact List.mem_cons_self _ _
        · rw [h1, h2]
          exact List.mem_cons_of_mem _ (List.mem_cons_self _ _)
      · exact List.mem_cons_of_mem _ (List.mem_cons_of_mem _ h1)
    · intro b hb
      rcases List.mem_cons.mp hb with hba | hb2
      · rw [hba]
        exact le_trans (le_max_left a c) (hle _ (List.mem_cons_self _ _))
      rcases List.mem_cons.mp hb2 with hbc | hb3
      · rw [hbc]
        exact le_trans (le_max_right a c) (hle _ (List.mem_cons_self _ _))
      · exact hle _ (List.mem_cons_of_mem _ hb3)

end FoldLemmas

/-- C4 amended: whenever merge_tiles_bbox returns a mosaic, the canvas is
(xMax - xMin + 1) * tileSize by (yMax - yMin + 1) * tileSize pixels where
[xMin, xMax] x [yMin, yMax] is the rectangle of the actually filtered tiles,
the raster origin equals tile2deg(xMin, yMin, zoom) exactly, and the pixel
sizes equal cal_pixel_size at the mean of the latitudes of the upper-left
corners of tiles (xMin, yMin) and (xMax, yMax) - the latter is the upper
edge of the bottom tile row, one row north of the true canvas south edge. -/
theorem merge_tiles_bbox_geometry (tiles : List (ℤ × ℤ × ℤ)) (zoom : ℤ)
    (north_lat south_lat west_lon east_lon : ℝ) (tile_size : ℤ)
    (out : RasterMap.MosaicOut)
    (h : RasterMap.merge_tiles_bbox tiles zoom north_lat south_lat west_lon east_lon
      tile_size = some out) :
    ∃ x_min x_max y_min y_max : ℤ,
      x_min ∈ (RasterMap.merge_filter tiles zoom north_lat south_lat west_lon
        east_lon).map (fun t => t.2.1) ∧
      (∀ v ∈ (RasterMap.merge_filter tiles zoom north_lat south_lat west_lon
        east_lon).map (fun t => t.2.1), x_min ≤ v ∧ v ≤ x_max) ∧
      y_min ∈ (RasterMap.merge_filter tiles zoom north_lat south_lat west_lon
        east_lon).map (fun t => t.2.2) ∧
      (∀ v ∈ (RasterMap.merge_filter tiles zoom north_lat south_lat west_lon
        east_lon).map (fun t => t.2.2), y_min ≤ v ∧ v ≤ y_max) ∧
      x_max ∈ (RasterMap.merge_filter tiles zoom north_lat south_lat west_lon
        east_lon).map (fun t => t.2.1) ∧
      y_max ∈ (RasterMap.merge_filter tiles zoom north_lat south_lat west_lon
        east_lon).map (fun t => t.2.2) ∧
      out.widthPx = (x_max - x_min + 1) * tile_size ∧
      out.heightPx = (y_max - y_min + 1) * tile_size ∧
      (out.originLon, out.originLat) = Transforms.tile2deg x_min y_min zoom ∧
      (out.pixelSizeX, out.pixelSizeY) = Formulas.cal_pixel_size zoom
        (((Transforms.tile2deg x_min y_min zoom).2 +
          (Transforms.tile2deg x_max y_max zoom).2) / 2) := by
  rcases hfil : RasterMap.merge_filter tiles zoom north_lat south_lat west_lon east_lon
    with - | ⟨t, ts⟩
  · simp only [RasterMap.merge_tiles_bbox, hfil] at h
    exact Option.noConfusion h
  · simp only [RasterMap.merge_tiles_bbox, hfil, Option.some.injEq] at h
    refine ⟨(ts.map (fun u => u.2.1)).foldl min t.2.1,
      (ts.map (fun u => u.2.1)).foldl max t.2.1,
      (ts.map (fun u => u.2.2)).foldl min t.2.2,
      (ts.map (fun u => u.2.2)).foldl max t.2.2, ?_, ?_, ?_, ?_, ?_, ?_, ?_, ?_, ?_, ?_⟩
    · rw [List.map_cons]
      exact (foldl_min_spec t.2.1 (ts.map (fun u => u.2.1))).1
    · rw [List.map_cons]
      intro v hv
      exact ⟨(foldl_min_spec t.2.1 (ts.map (fun u => u.2.1))).2 v hv,
        (foldl_max_spec t.2.1 (ts.map (fun u => u.2.1))).2 v hv⟩
    · rw [List.map_cons]
      exact (foldl_min_spec t.2.2 (ts.map (fun u => u.2.2))).1
    · rw [List.map_cons]
      intro v hv
      exact ⟨(foldl_min_spec t.2.2 (ts.map (fun u => u.2.2))).2 v hv,
        (foldl_max_spec t.2.2 (ts.map (fun u => u.2.2))).2 v hv⟩
    · rw [List.map_cons]
      exact (foldl_max_spec t.2.1 (ts.map (fun u => u.2.1))).1
    · rw [List.map_cons]
      exact (foldl_max_spec t.2.2 (ts.map (fun u => u.2.2))).1
    · rw [← h]
    · rw [← h]
    · rw [← h]
    · rw [← h]

section MergeExample

lemma deg2tile_origin_zoom0 : Transforms.deg2tile 0 0 0 = (0, 0) := by
  have hx : (Transforms.deg2tile 0 0 0).1 = 0 := by
    rw [deg2tile_fst, pyTrunc_of_nonneg (by positivity)]
    rw [show ((0 : ℝ) + 180) / 360 * 2 ^ (0 : ℤ) = 1 / 2 by norm_num, Int.floor_eq_zero_iff]
    norm_num
  have hy : (Transforms.deg2tile 0 0 0).2 = 0 := by
    rw [deg2tile_lat0_snd, pyTrunc_of_nonneg (by positivity)]
    rw [show (2 : ℝ) ^ (0 : ℤ) / 2 = 1 / 2 by norm_num, Int.floor_eq_zero_iff]
    norm_num
  exact Prod.ext hx hy

lemma merge_filter_example :
    RasterMap.merge_filter [(0, 0, 0)] 0 0 0 0 0 = [(0, 0, 0)] := by
  simp only [RasterMap.merge_filter, deg2tile_origin_zoom0]
  norm_num

lemma cosh_pi_lt_million : Real.cosh π < 1000000 := by
  have h1 : Real.cosh π < Real.exp π := by
    rw [Real.cosh_eq]
    have h2 : Real.exp (-π) < Real.exp π := Real.exp_lt_exp.mpr (by linarith [pi_pos])
    linarith
  have h2 : Real.exp π < Real.exp 4 := Real.exp_lt_exp.mpr (by linarith [Real.pi_lt_d2])
  have h3 : Real.exp 4 = Real.exp 1 ^ 4 := by
    rw [← Real.exp_nat_mul]
    norm_num
  have h4 : Real.exp 1 ^ 4 < (2.7182818286 : ℝ) ^ 4 :=
    pow_lt_pow_left₀ Real.exp_one_lt_d9 (Real.exp_pos 1).le (by norm_num)
  have h5 : (2.7182818286 : ℝ) ^ 4 < 1000000 := by norm_num
  linarith

lemma cal_pixel_size_mercator_top :
    Formulas.cal_pixel_size 0 (degrees (Real.arctan (Real.sinh π))) =
      (45 / 32, 45 / 32 * (Real.cosh π)⁻¹) := by
  have hrad : radians (degrees (Real.arctan (Real.sinh π))) = Real.arctan (Real.sinh π) := by
    unfold radians degrees
    field_simp
  have hcos : Real.cos (Real.arctan (Real.sinh π)) = (Real.cosh π)⁻¹ := by
    rw [Real.cos_arctan]
    rw [show (1 : ℝ) + Real.sinh π ^ 2 = Real.cosh π ^ 2 by rw [Real.cosh_sq]; ring]
    rw [Real.sqrt_sq (Real.cosh_pos π).le, one_div]
  have hpos : (0 : ℝ) < (Real.cosh π)⁻¹ := inv_pos.mpr (Real.cosh_pos π)
  have hbig : (1e-6 : ℝ) ≤ (Real.cosh π)⁻¹ := by
    rw [show (1e-6 : ℝ) = ((1000000 : ℝ))⁻¹ by norm_num]
    exact inv_le_inv_of_le (Real.cosh_pos π) cosh_pi_lt_million.le
  simp only [Formulas.cal_pixel_size, hrad, hcos]
  rw [if_neg (by rw [abs_of_pos hpos]; linarith)]
  unfold Constants.TILE_SIZE
  norm_num

lemma cal_pixel_size_zero_zero : Formulas.cal_pixel_size 0 0 = (45 / 32, 45 / 32) := by
  simp only [Formulas.cal_pixel_size, radians_zero, Real.cos_zero]
  rw [if_neg (by norm_num)]
  unfold Constants.TILE_SIZE
  norm_num

lemma merge_example :
    RasterMap.merge_tiles_bbox [(0, 0, 0)] 0 0 0 0 0 256 =
      some { widthPx := 256, heightPx := 256, originLon := -180,
             originLat := degrees (Real.arctan (Real.sinh π)),
             pixelSizeX := 45 / 32, pixelSizeY := 45 / 32 * (Real.cosh π)⁻¹ } := by
  simp only [RasterMap.merge_tiles_bbox, merge_filter_example, List.map_nil,
    List.foldl_nil, tile2deg_origin, Option.some.injEq]
  rw [show (degrees (Real.arctan (Real.sinh π)) + degrees (Real.arctan (Real.sinh π))) / 2
    = degrees (Real.arctan (Real.sinh π)) by ring]
  rw [cal_pixel_size_mercator_top]
  norm_num

lemma tile2deg_x0_y1_zoom0 :
    (Transforms.tile2deg 0 1 0).2 = -(degrees (Real.arctan (Real.sinh π))) := by
  rw [tile2deg_snd]
  rw [show π * (1 - 2 * ((1 : ℤ) : ℝ) / 2 ^ (0 : ℤ)) = -π by push_cast; norm_num]
  rw [Real.sinh_neg, Real.arctan_neg]
  unfold degrees
  ring

end MergeExample

/-- C4 counterexample: for the concrete one-tile mosaic at zoom 0, the code
derives the pixel sizes from the mean of the latitudes of the tops of the
first and last tile rows (both the Mercator limit latitude here), giving a
y pixel size of 45 / 32 / cosh pi; the midpoint of the canvas north and south
edges is latitude 0, whose pixel size is 45 / 32, and the two differ. -/
theorem merge_tiles_bbox_centerlat_counterexample :
    (RasterMap.merge_tiles_bbox [(0, 0, 0)] 0 0 0 0 0 256).map
      (fun o => o.pixelSizeY) = some (45 / 32 * (Real.cosh π)⁻¹) ∧
    (Formulas.cal_pixel_size 0
      (((Transforms.tile2deg 0 0 0).2 + (Transforms.tile2deg 0 1 0).2) / 2)).2 = 45 / 32 ∧
    (45 / 32 : ℝ) * (Real.cosh π)⁻¹ ≠ 45 / 32 := by
  refine ⟨?_, ?_, ?_⟩
  · rw [merge_example]
    rfl
  · have h0 : (Transforms.tile2deg 0 0 0).2 = degrees (Real.arctan (Real.sinh π)) := by
      rw [tile2deg_origin]
    rw [h0, tile2deg_x0_y1_zoom0]
    rw [show (degrees (Real.arctan (Real.sinh π)) +
      -(degrees (Real.arctan (Real.sinh π)))) / 2 = 0 by ring]
    rw [cal_pixel_size_zero_zero]
  · intro heq
    have hc : 1 < Real.cosh π := Real.one_lt_cosh.mpr Real.pi_ne_zero
    have h45 : (45 / 32 : ℝ) ≠ 0 := by norm_num
    have h1 : (Real.cosh π)⁻¹ = 1 :=
      mul_left_cancel₀ h45 (heq.trans (mul_one (45 / 32 : ℝ)).symm)
    rw [inv_eq_one] at h1
    linarith

/-- Witness for merge_tiles_bbox_geometry at the concrete one-tile mosaic. -/
theorem merge_tiles_bbox_geometry_witness :
    RasterMap.merge_tiles_bbox [(0, 0, 0)] 0 0 0 0 0 256 =
      some { widthPx := 256, heightPx := 256, originLon := -180,
             originLat := degrees (Real.arctan (Real.sinh π)),
             pixelSizeX := 45 / 32, pixelSizeY := 45 / 32 * (Real.cosh π)⁻¹ } ∧
    (∃ x_min x_max y_min y_max : ℤ,
      x_min ∈ (RasterMap.merge_filter [(0, 0, 0)] 0 0 0 0 0).map (fun t => t.2.1) ∧
      (∀ v ∈ (RasterMap.merge_filter [(0, 0, 0)] 0 0 0 0 0).map (fun t => t.2.1),
        x_min ≤ v ∧ v ≤ x_max) ∧
      y_min ∈ (RasterMap.merge_filter [(0, 0, 0)] 0 0 0 0 0).map (fun t => t.2.2) ∧
      (∀ v ∈ (RasterMap.merge_filter [(0, 0, 0)] 0 0 0 0 0).map (fun t => t.2.2),
        y_min ≤ v ∧ v ≤ y_max) ∧
      x_max ∈ (RasterMap.merge_filter [(0, 0, 0)] 0 0 0 0 0).map (fun t => t.2.1) ∧
      y_max ∈ (RasterMap.merge_filter [(0, 0, 0)] 0 0 0 0 0).map (fun t => t.2.2) ∧
      ({ widthPx := 256, heightPx := 256, originLon := -180,
         originLat := degrees (Real.arctan (Real.sinh π)),
         pixelSizeX := 45 / 32,
         pixelSizeY := 45 / 32 * (Real.cosh π)⁻¹ } : RasterMap.MosaicOut).widthPx =
        (x_max - x_min + 1) * 256 ∧
      ({ widthPx := 256, heightPx := 256, originLon := -180,
         originLat := degrees (Real.arctan (Real.sinh π)),
         pixelSizeX := 45 / 32,
         pixelSizeY := 45 / 32 * (Real.cosh π)⁻¹ } : RasterMap.MosaicOut).heightPx =
        (y_max - y_min + 1) * 256 ∧
      (((-180 : ℝ)), degrees (Real.arctan (Real.sinh π))) =
        Transforms.tile2deg x_min y_min 0 ∧
      ((45 / 32 : ℝ), (45 / 32 : ℝ) * (Real.cosh π)⁻¹) = Formulas.cal_pixel_size 0
        (((Transforms.tile2deg x_min y_min 0).2 +
          (Transforms.tile2deg x_max y_max 0).2) / 2)) :=
  ⟨merge_example, merge_tiles_bbox_geometry [(0, 0, 0)] 0 0 0 0 0 256 _ merge_example⟩

end MapApp
